import Mathlib

/-!
Shallow embedding of `src/Random_Paving_Patterns.py` (function `pavPattern`).

Modelling conventions:
* All Python floats are modelled as rationals (`ℚ`).  Every numeric constant of
  the source (`0.5`, `3.0`, `0.001`, `1e-6`) is an exactly representable binary
  double, and every value the program computes from them is obtained by
  addition, subtraction, `max` and comparisons of multiples of `0.5` (plus the
  two epsilon constants), all of which are exact in IEEE-754 double precision
  at these magnitudes, so the rational semantics coincides with the float
  semantics of the source.
* Randomness (`random.randint`, `random.choice`) is modelled by an oracle
  stream `Env.rand : ℕ → ℕ` consumed one value per call, each value reduced
  modulo the size of the range being drawn from; a universally quantified
  `Env` quantifies over every possible outcome of the random choices.
* The Rhino renderer boundary (`rs.AddSrfPt`) is modelled by an oracle
  `Env.renderOk : ℕ → Bool` deciding whether the n-th surface-creation call
  returns a handle or `None`.  A created surface is represented by the data
  the algorithm hands to the renderer (column, vertical span) together with
  the layer assigned to it by `rs.ObjectLayer`.
* Rhino document layers: the source only ever queries the document for layers
  named `"Height_Group_" + str(i)`, a family indexed injectively by the bucket
  index `i`, so a layer name is modelled by its bucket index `i : ℕ`.
  `Env.doc0` lists the Height-Group layers already present in the document
  when the script runs.
* Python exceptions are modelled by `Except PyErr`: `random.choice([])` raises
  `IndexError` and `max([])` raises `ValueError`.  The source's `while` loop
  is modelled with explicit fuel, initialised at each column to a bound that
  provably dominates the number of iterations (`fuelOut` is proved
  unreachable), making every definition structurally recursive and
  kernel-executable.
-/

namespace Paving

/-- Loop-guard epsilon of the source (`0.001` at lines 77 and 122). -/
def eps3 : ℚ := 1 / 1000

/-- Equality-check epsilon of the source (`1e-6` at lines 79 and 85). -/
def eps6 : ℚ := 1 / 1000000

/-- Python `int()` applied to a real value truncates toward zero. -/
def pyInt (q : ℚ) : ℤ := if 0 ≤ q then ⌊q⌋ else ⌈q⌉

/-- Source line 32, `num_buckets = int((max_r - 0.5) / bucket_size) + 1`, with
the constant base `0.5`, step `bucket_size` and `max_r` as parameters (the
source hardcodes `base = 0.5`, `step = 0.5`, `max = 3.0`; the spec names this
configuration surface `(base, step, max)`). -/
def numBucketsOf (base step maxr : ℚ) : ℤ := pyInt ((maxr - base) / step) + 1

/-- Source line 35, `bucket_heights = {i + 1: 0.5 + i * bucket_size for i in
range(num_buckets)}`, as an association list in the dict's insertion order
(key `i + 1` maps to height `base + i * step`). -/
def buildCatalog (base step maxr : ℚ) : List (ℕ × ℚ) :=
  (List.range (numBucketsOf base step maxr).toNat).map fun j => (j + 1, base + j * step)

/-- Source line 30: `bucket_size = 0.5`. -/
def bucket_size : ℚ := 1 / 2

/-- Source line 31: `max_r = 3.0`. -/
def max_r : ℚ := 3

/-- Source line 32 at the hardcoded configuration. -/
def num_buckets : ℕ := (numBucketsOf (1 / 2) bucket_size max_r).toNat

/-- Source line 35 at the hardcoded configuration. -/
def bucket_heights : List (ℕ × ℚ) := buildCatalog (1 / 2) bucket_size max_r

/-- The smallest height of the catalog (head of the ascending height list). -/
def minCatalogHeight : ℚ :=
  match bucket_heights with
  | [] => 0
  | p :: _ => p.2

/-- Ghost marker recording which code site emitted a surface: the stacking
loop (lines 39–68), the catalog-fit branch of the gap closer with its
`is_last_tile` flag (lines 81–105), or a custom filler sized to a remaining
gap (the fallback at lines 106–119 and the residual guard at lines 121–132). -/
inductive Site where
  | stack : Site
  | fit : Site
  | fitLast : Site
  | filler : Site
deriving Repr, DecidableEq

/-- One created surface: column index, vertical span, the bucket index of the
Height-Group layer it was placed on, and the ghost site marker. -/
structure Panel where
  col : ℕ
  y0 : ℚ
  y1 : ℚ
  layer : ℕ
  site : Site
deriving Repr, DecidableEq

/-- Python exceptions reachable in the source, plus the fuel marker of the
embedded while loop (proved unreachable). -/
inductive PyErr where
  | valueError : PyErr
  | indexError : PyErr
  | fuelOut : PyErr
deriving Repr, DecidableEq

deriving instance DecidableEq for Except

/-- The ambient oracles: random stream, renderer success per call, and the
Height-Group layers already present in the Rhino document. -/
structure Env where
  rand : ℕ → ℕ
  renderOk : ℕ → Bool
  doc0 : List ℕ

/-- Mutable state of a run: next random-call index, next renderer-call index,
document layers, the `existing_layers` registry, the per-column `y_bases`
vector, and the output list `srfs` (`none` being an appended null handle). -/
structure St where
  rIdx : ℕ
  sIdx : ℕ
  doc : List ℕ
  existing : List ℕ
  yBases : List ℚ
  srfs : List (Option Panel)
deriving Repr, DecidableEq

/-- `random.randint(1, n)`: consumes one random value, result in `1..n`. -/
def randint1 (env : Env) (n : ℕ) (s : St) : ℕ × St :=
  (1 + env.rand s.rIdx % n, { s with rIdx := s.rIdx + 1 })

/-- `random.choice(l)`: uniform choice, `IndexError` on the empty list. -/
def choice {α : Type} (env : Env) (s : St) : List α → Except PyErr (α × St)
  | [] => .error .indexError
  | a :: t =>
      .ok ((a :: t).get ⟨env.rand s.rIdx % (t.length + 1), Nat.mod_lt _ (Nat.succ_pos _)⟩,
        { s with rIdx := s.rIdx + 1 })

/-- `rs.AddSrfPt(...)`: asks the renderer oracle whether this call returns a
surface handle, advancing the renderer-call counter. -/
def addSrf (env : Env) (s : St) : Bool × St :=
  (env.renderOk s.sIdx, { s with sIdx := s.sIdx + 1 })

/-- Source lines 41–68: the body of the stacking loops for one (row, column)
pair of column `i`.  Draws a bucket index, maintains the document layers and
the `existing_layers` registry (a freshly added layer also consumes the three
`random.randint(0, 255)` colour draws), spans a panel from the column's
running height, advances the running height and appends the render result
(`none` for a failed render, exactly as the source appends a null `srf`). -/
def stackCell (env : Env) (i : ℕ) (s : St) : St :=
  let (bi, s) := randint1 env num_buckets s
  let r := ((bucket_heights.lookup bi).getD 0 : ℚ)
  let s :=
    if bi ∈ s.doc then
      if bi ∈ s.existing then s else { s with existing := s.existing ++ [bi] }
    else
      { s with doc := s.doc ++ [bi], rIdx := s.rIdx + 3, existing := s.existing ++ [bi] }
  let y0 := s.yBases.getD i 0
  let y1 := y0 + r
  let (ok, s) := addSrf env s
  let entry := if ok then some (Panel.mk i y0 y1 bi .stack) else none
  { s with yBases := s.yBases.set i y1, srfs := s.srfs ++ [entry] }

/-- Source line 40: the inner loop over columns `0..xNum-1` of one row. -/
def stackRow (env : Env) (x : ℕ) (s : St) : St :=
  (List.range x).foldl (fun s i => stackCell env i s) s

/-- Source line 39: the outer loop over rows `0..yNum-1`. -/
def stackPhase (env : Env) (x y : ℕ) (s : St) : St :=
  (List.range y).foldl (fun s _ => stackRow env x s) s

/-- Source line 79: `valid_fits`, the catalog entries whose height fits the
current gap up to `1e-6`. -/
def validFits (gap : ℚ) : List (ℕ × ℚ) :=
  bucket_heights.filter fun p => decide (p.2 ≤ gap + eps6)

/-- Source lines 77–119: the per-column `while gap > 0.001` loop of the gap
closer for column `i`, with explicit fuel.  `cur` is the loop variable
`current_y`; the loop returns its final value together with the state.  In
the catalog-fit branch the chosen height always advances `current_y`, and a
successfully rendered surface is tagged with a random registry layer when
`is_last_tile` and with the chosen bucket's layer otherwise; in the
empty-fits fallback one filler spanning the exact remaining gap is emitted,
tagged with a random registry layer, and the loop stops without touching
`current_y` or `gap` (exactly as the source does). -/
def gapLoop (env : Env) (i : ℕ) (maxH : ℚ) : ℕ → ℚ → St → Except PyErr (ℚ × St)
  | 0, _, _ => .error .fuelOut
  | fuel + 1, cur, s =>
    let gap := maxH - cur
    if eps3 < gap then
      match validFits gap with
      | [] => do
          let y1 := cur + gap
          let (lay, s) ← choice env s s.existing
          let (ok, s) := addSrf env s
          let s :=
            if ok then { s with srfs := s.srfs ++ [some (Panel.mk i cur y1 lay .filler)] }
            else s
          .ok (cur, s)
      | p :: rest => do
          let (pick, s1) ← choice env s (p :: rest)
          let isLast := |gap - pick.2| < eps6
          let y1 := cur + pick.2
          let (ok, s2) := addSrf env s1
          let s3 ←
            if ok then
              if isLast then do
                let (lay, s3) ← choice env s2 s2.existing
                pure { s3 with srfs := s3.srfs ++ [some (Panel.mk i cur y1 lay .fitLast)] }
              else
                pure { s2 with srfs := s2.srfs ++ [some (Panel.mk i cur y1 pick.1 .fit)] }
            else pure s2
          gapLoop env i maxH fuel y1 s3
    else .ok (cur, s)

/-- Source lines 121–132: the residual guard after the loop.  At the end of
the loop the source's `gap` variable always equals `max_height - current_y`
(the fit branch recomputes it and the fallback branch leaves both `gap` and
`current_y` untouched), so it is recomputed here from `cur`. -/
def postGuard (env : Env) (i : ℕ) (maxH : ℚ) (cur : ℚ) (s : St) : Except PyErr St :=
  let gap := maxH - cur
  if eps3 ≤ gap then do
    let y1 := cur + gap
    let (lay, s) ← choice env s s.existing
    let (ok, s) := addSrf env s
    .ok (if ok then { s with srfs := s.srfs ++ [some (Panel.mk i cur y1 lay .filler)] } else s)
  else .ok s

/-- Fuel that provably dominates the iteration count of `gapLoop` starting
from gap `g`: each catalog-fit iteration closes at least the smallest
catalog height `1/2`, and every other branch stops the loop. -/
def gapFuel (g : ℚ) : ℕ := (⌈2 * g⌉).toNat + 1

/-- Source lines 73–132 for one column `i`: run the gap-closing loop from the
column's stacked height, then the residual guard.  Also returns the final
value of the loop variable `current_y` (which the source computes and then
discards; it is the column's running height at the end of gap closing). -/
def closeColumn (env : Env) (maxH : ℚ) (s : St) (i : ℕ) : Except PyErr (ℚ × St) := do
  let cur0 := s.yBases.getD i 0
  let (cur, s1) ← gapLoop env i maxH (gapFuel (maxH - cur0)) cur0 s
  let s2 ← postGuard env i maxH cur s1
  .ok (cur, s2)

/-- Source lines 73–132: the gap closer over all columns, collecting each
column's final `current_y`. -/
def closePhase (env : Env) (maxH : ℚ) (x : ℕ) (s : St) : Except PyErr (List ℚ × St) :=
  (List.range x).foldlM
    (fun acc i => do
      let (cur, s) ← closeColumn env maxH acc.2 i
      pure (acc.1 ++ [cur], s))
    (([] : List ℚ), s)

/-- Python `max` over a list: `ValueError` on the empty list. -/
def pyMax : List ℚ → Except PyErr ℚ
  | [] => .error .valueError
  | a :: t => .ok (t.foldl max a)

/-- Observable outcome of a run: the output list `srfs`, the final per-column
`current_y` values, `max_height`, and the final registry and document. -/
structure RunResult where
  srfs : List (Option Panel)
  finals : List ℚ
  maxH : ℚ
  existing : List ℕ
  doc : List ℕ
deriving Repr, DecidableEq

/-- Source lines 26–28: the initial state of a run. -/
def initSt (env : Env) (x : ℕ) : St :=
  { rIdx := 0, sIdx := 0, doc := env.doc0, existing := [],
    yBases := List.replicate x 0, srfs := [] }

/-- Source lines 25–134: the whole `pavPattern(xNum, yNum)` run.  A negative
Python argument makes both `range(xNum)` and `range(yNum)` empty, exactly as
the value `0`, so the two counts are taken in `ℕ`. -/
def pavPattern (env : Env) (x y : ℕ) : Except PyErr RunResult := do
  let s := stackPhase env x y (initSt env x)
  let maxH ← pyMax s.yBases
  let (finals, s2) ← closePhase env maxH x s
  .ok (RunResult.mk s2.srfs finals maxH s2.existing s2.doc)

/-- The output list of a run, the empty list when the run failed. -/
def srfsOf (r : Except PyErr RunResult) : List (Option Panel) :=
  match r with
  | .ok r => r.srfs
  | .error _ => []

/-- The final per-column `current_y` values of a run. -/
def finalsOf (r : Except PyErr RunResult) : List ℚ :=
  match r with
  | .ok r => r.finals
  | .error _ => []

/-- The final `existing_layers` registry of a run. -/
def existingOf (r : Except PyErr RunResult) : List ℕ :=
  match r with
  | .ok r => r.existing
  | .error _ => []

attribute [local semireducible] Rat.add Rat.mul Rat.inv Rat.sub Rat.ofScientific

lemma bucket_heights_eq :
    bucket_heights = [(1, 1/2), (2, 1), (3, 3/2), (4, 2), (5, 5/2), (6, 3)] := by decide

lemma num_buckets_eq : num_buckets = 6 := by decide

lemma minCatalogHeight_eq : minCatalogHeight = 1 / 2 := by decide

lemma eps3_eq : eps3 = 1 / 1000 := rfl

lemma eps6_eq : eps6 = 1 / 1000000 := rfl

lemma buildCatalog_length (base step maxr : ℚ) (hs : 0 < step) (hb : base ≤ maxr) :
    ((buildCatalog base step maxr).length : ℤ) = ⌊(maxr - base) / step⌋ + 1 := by
  have h0 : (0 : ℚ) ≤ (maxr - base) / step := div_nonneg (by linarith) hs.le
  have hfl : 0 ≤ ⌊(maxr - base) / step⌋ := Int.floor_nonneg.mpr h0
  simp only [buildCatalog, numBucketsOf, pyInt, if_pos h0, List.length_map, List.length_range]
  omega

lemma buildCatalog_get (base step maxr : ℚ) (j : ℕ)
    (hj : j < (buildCatalog base step maxr).length) :
    (buildCatalog base step maxr).get ⟨j, hj⟩ = (j + 1, base + j * step) := by
  simp [buildCatalog]

/-- Claim C6: for valid parameters the catalog has exactly
`floor((max-base)/step)+1` buckets, the entry at position `j` is the bucket
with 1-based index `j+1` and height `base + j * step` (that is, bucket `i`
has height `base + (i-1) * step`), the heights are strictly increasing, and
the first height is `base`. -/
theorem catalog_build_spec (base step maxr : ℚ) (hs : 0 < step) (hb : base ≤ maxr) :
    ((buildCatalog base step maxr).length : ℤ) = ⌊(maxr - base) / step⌋ + 1 ∧
    (∀ j : ℕ, ∀ hj : j < (buildCatalog base step maxr).length,
      (buildCatalog base step maxr).get ⟨j, hj⟩ = (j + 1, base + j * step)) ∧
    (∀ j : ℕ, ∀ hj : j < (buildCatalog base step maxr).length,
      ∀ hj1 : j + 1 < (buildCatalog base step maxr).length,
      ((buildCatalog base step maxr).get ⟨j, hj⟩).2 <
        ((buildCatalog base step maxr).get ⟨j + 1, hj1⟩).2) ∧
    (∀ h0 : 0 < (buildCatalog base step maxr).length,
      (buildCatalog base step maxr).get ⟨0, h0⟩ = (1, base)) := by
  refine ⟨buildCatalog_length base step maxr hs hb, buildCatalog_get base step maxr, ?_, ?_⟩
  · intro j hj hj1
    rw [buildCatalog_get base step maxr j hj, buildCatalog_get base step maxr (j + 1) hj1]
    have : (j : ℚ) * step < (j + 1 : ℕ) * step := by
      have hq : (j : ℚ) < (j + 1 : ℕ) := by push_cast; linarith
      exact mul_lt_mul_of_pos_right hq hs
    simpa using by linarith
  · intro h0
    have := buildCatalog_get base step maxr 0 h0
    simpa using this

/-- Witness for `catalog_build_spec` at the source's own configuration. -/
theorem catalog_build_spec_witness :
    (0 : ℚ) < 1 / 2 ∧ (1 / 2 : ℚ) ≤ 3 ∧
    ((buildCatalog (1 / 2) (1 / 2) 3).length : ℤ) = ⌊((3 : ℚ) - 1 / 2) / (1 / 2)⌋ + 1 :=
  ⟨by norm_num, by norm_num,
    (catalog_build_spec (1 / 2) (1 / 2) 3 (by norm_num) (by norm_num)).1⟩

/-- A rational that is an integer multiple of one half.  Every height the
source program ever computes is of this form, because every catalog height
is and the program only ever adds them. -/
def HalfInt (q : ℚ) : Prop := ∃ n : ℤ, q = n / 2

lemma HalfInt.zero : HalfInt 0 := ⟨0, by norm_num⟩

lemma HalfInt.add {a b : ℚ} (ha : HalfInt a) (hb : HalfInt b) : HalfInt (a + b) := by
  obtain ⟨n, rfl⟩ := ha
  obtain ⟨m, rfl⟩ := hb
  exact ⟨n + m, by push_cast; ring⟩

lemma HalfInt.sub {a b : ℚ} (ha : HalfInt a) (hb : HalfInt b) : HalfInt (a - b) := by
  obtain ⟨n, rfl⟩ := ha
  obtain ⟨m, rfl⟩ := hb
  exact ⟨n - m, by push_cast; ring⟩

lemma HalfInt.max {a b : ℚ} (ha : HalfInt a) (hb : HalfInt b) : HalfInt (max a b) := by
  rcases le_total a b with h | h
  · rwa [max_eq_right h]
  · rwa [max_eq_left h]

lemma HalfInt.le_of_le_add_eps6 {a b : ℚ} (ha : HalfInt a) (hb : HalfInt b)
    (h : a ≤ b + eps6) : a ≤ b := by
  obtain ⟨n, rfl⟩ := ha
  obtain ⟨m, rfl⟩ := hb
  rw [eps6_eq] at h
  have h2 : (n : ℚ) < m + 1 := by linarith
  have h3 : n < m + 1 := by exact_mod_cast h2
  have h4 : n ≤ m := by omega
  have : (n : ℚ) ≤ m := by exact_mod_cast h4
  linarith

lemma HalfInt.eq_zero_of_le_eps3 {a : ℚ} (ha : HalfInt a) (h0 : 0 ≤ a) (h : a ≤ eps3) :
    a = 0 := by
  obtain ⟨n, rfl⟩ := ha
  rw [eps3_eq] at h
  have h1 : (0 : ℚ) ≤ n := by linarith
  have h2 : (n : ℚ) < 1 := by linarith
  have h3 : (0 : ℤ) ≤ n := by exact_mod_cast h1
  have h4 : n < 1 := by exact_mod_cast h2
  have : n = 0 := by omega
  subst this
  norm_num

lemma HalfInt.half_le_of_eps3_lt {a : ℚ} (ha : HalfInt a) (h : eps3 < a) : 1 / 2 ≤ a := by
  obtain ⟨n, rfl⟩ := ha
  rw [eps3_eq] at h
  have h1 : (0 : ℚ) < n := by linarith
  have h2 : (0 : ℤ) < n := by exact_mod_cast h1
  have h3 : (1 : ℤ) ≤ n := h2
  have : (1 : ℚ) ≤ n := by exact_mod_cast h3
  linarith

lemma bucket_heights_halfint : ∀ p ∈ bucket_heights, HalfInt p.2 ∧ 1 / 2 ≤ p.2 := by
  rw [bucket_heights_eq]
  intro p hp
  fin_cases hp
  · exact ⟨⟨1, by norm_num⟩, by norm_num⟩
  · exact ⟨⟨2, by norm_num⟩, by norm_num⟩
  · exact ⟨⟨3, by norm_num⟩, by norm_num⟩
  · exact ⟨⟨4, by norm_num⟩, by norm_num⟩
  · exact ⟨⟨5, by norm_num⟩, by norm_num⟩
  · exact ⟨⟨6, by norm_num⟩, by norm_num⟩

lemma validFits_mem {pr : ℕ × ℚ} {g : ℚ} (hmem : pr ∈ validFits g) :
    pr ∈ bucket_heights ∧ pr.2 ≤ g + eps6 := by
  have hm := List.mem_filter.mp hmem
  exact ⟨hm.1, by simpa using hm.2⟩

lemma validFits_nil_lt {g : ℚ} (h : validFits g = []) : g < 1 / 2 - eps6 := by
  have h1 : ((1 : ℕ), (1 : ℚ) / 2) ∈ bucket_heights := by rw [bucket_heights_eq]; simp
  have h2 := List.filter_eq_nil_iff.mp h _ h1
  simp only [decide_eq_true_eq] at h2
  push_neg at h2
  linarith [h2]

lemma validFits_ne_nil {g : ℚ} (h : 1 / 2 ≤ g) : validFits g ≠ [] := by
  intro hnil
  have := validFits_nil_lt hnil
  rw [eps6_eq] at this
  linarith


lemma gapLoop_spec (env : Env) (i : ℕ) (maxH : ℚ) :
    ∀ (fuel : ℕ) (cur : ℚ) (s : St) (c : ℚ) (s2 : St),
      gapLoop env i maxH fuel cur s = .ok (c, s2) →
      s2.existing = s.existing ∧ s2.doc = s.doc ∧ s2.yBases = s.yBases ∧
      (maxH - c ≤ eps3 ∨ validFits (maxH - c) = []) ∧
      ∃ t, s2.srfs = s.srfs ++ t ∧
        ∀ p : Panel, some p ∈ t →
          p.col = i ∧ p.site ≠ Site.stack ∧
          ((p.site = Site.filler ∨ p.site = Site.fitLast) → p.layer ∈ s.existing) ∧
          (p.site = Site.filler → p.y1 - p.y0 < 1 / 2) := by
  intro fuel
  induction fuel with
  | zero => intro cur s c s2 h; simp [gapLoop] at h
  | succ fuel ih =>
    intro cur s c s2 h
    rw [gapLoop] at h
    by_cases hg : eps3 < maxH - cur
    · rw [if_pos hg] at h
      cases hvf : validFits (maxH - cur) with
      | nil =>
        rw [hvf] at h
        have hspan : maxH - cur < 1 / 2 := by
          have := validFits_nil_lt hvf
          rw [eps6_eq] at this
          linarith
        cases hex : s.existing with
        | nil =>
          rw [hex] at h
          simp [choice, Bind.bind, Except.bind] at h
        | cons a t =>
          rw [hex] at h
          by_cases hok : env.renderOk s.sIdx
          · simp [choice, Bind.bind, Except.bind, addSrf, hok] at h
            obtain ⟨hc, hs2⟩ := h
            subst hc
            subst hs2
            refine ⟨hex, rfl, rfl, Or.inr hvf, _, rfl, ?_⟩
            intro p hp
            simp at hp
            subst hp
            refine ⟨rfl, by simp, ?_, ?_⟩
            · intro _
              exact List.getElem_mem _
            · intro _
              simpa using hspan
          · simp [choice, Bind.bind, Except.bind, addSrf, hok] at h
            obtain ⟨hc, hs2⟩ := h
            subst hc
            subst hs2
            exact ⟨hex, rfl, rfl, Or.inr hvf, [], by simp, by simp⟩
      | cons q rest =>
        rw [hvf] at h
        simp only [choice, Bind.bind, Except.bind, addSrf] at h
        by_cases hok : env.renderOk s.sIdx
        · rw [if_pos hok] at h
          by_cases hlast : |maxH - cur - ((q :: rest).get
              ⟨env.rand s.rIdx % (rest.length + 1), Nat.mod_lt _ (Nat.succ_pos _)⟩).2| < eps6
          · rw [if_pos hlast] at h
            cases hex : s.existing with
            | nil =>
              rw [hex] at h
              simp [choice, Bind.bind, Except.bind] at h
            | cons a t =>
              rw [hex] at h
              simp only [choice, Bind.bind, Except.bind] at h
              obtain ⟨he, hd, hy, hexit, tl, hsrfs, hpanels⟩ := ih _ _ _ _ h
              simp at he hd hy hsrfs
              refine ⟨he, hd, hy, hexit, _, hsrfs, ?_⟩
              intro p hp
              rcases List.mem_cons.mp hp with hp | hp
              · simp at hp
                subst hp
                refine ⟨rfl, by simp, ?_, by simp⟩
                intro _
                exact List.getElem_mem _
              · have := hpanels p hp
                simpa using this
          · rw [if_neg hlast] at h
            simp only [pure, Except.pure, Except.bind] at h
            obtain ⟨he, hd, hy, hexit, tl, hsrfs, hpanels⟩ := ih _ _ _ _ h
            simp at he hd hy hsrfs
            refine ⟨he, hd, hy, hexit, _, hsrfs, ?_⟩
            intro p hp
            rcases List.mem_cons.mp hp with hp | hp
            · simp at hp
              subst hp
              exact ⟨rfl, by simp, by simp, by simp⟩
            · have := hpanels p hp
              simpa using this
        · rw [if_neg hok] at h
          simp only [pure, Except.pure, Except.bind] at h
          obtain ⟨he, hd, hy, hexit, tl, hsrfs, hpanels⟩ := ih _ _ _ _ h
          simp at he hd hy hsrfs
          exact ⟨he, hd, hy, hexit, tl, hsrfs, fun p hp => by simpa using hpanels p hp⟩
    · rw [if_neg hg] at h
      simp at h
      obtain ⟨hc, hs2⟩ := h
      subst hc
      subst hs2
      exact ⟨rfl, rfl, rfl, Or.inl (by linarith), [], by simp, by simp⟩


lemma gapFuel_pos (g : ℚ) : 1 ≤ gapFuel g := by unfold gapFuel; omega

lemma gapFuel_decrease {g h : ℚ} (hg : eps3 < g) (hh : 1 / 2 ≤ h) :
    gapFuel (g - h) + 1 ≤ gapFuel g := by
  unfold gapFuel
  have h1 : (0 : ℚ) < 2 * g := by rw [eps3_eq] at hg; linarith
  have h2 : (1 : ℤ) ≤ ⌈2 * g⌉ := Int.ceil_pos.mpr h1
  have h3 : 2 * (g - h) ≤ 2 * g - 1 := by linarith
  have h4 : ⌈2 * (g - h)⌉ ≤ ⌈2 * g - (1 : ℚ)⌉ := Int.ceil_mono h3
  have h5 : ⌈2 * g - ((1 : ℤ) : ℚ)⌉ = ⌈2 * g⌉ - 1 := Int.ceil_sub_int (2 * g) 1
  have h6 : ⌈2 * g - (1 : ℚ)⌉ = ⌈2 * g⌉ - 1 := by
    rw [← h5]
    norm_num
  omega

lemma gapLoop_no_fuelOut (env : Env) (i : ℕ) (maxH : ℚ) :
    ∀ (fuel : ℕ) (cur : ℚ) (s : St), gapFuel (maxH - cur) ≤ fuel →
      gapLoop env i maxH fuel cur s ≠ .error .fuelOut := by
  intro fuel
  induction fuel with
  | zero => intro cur s hf; have := gapFuel_pos (maxH - cur); omega
  | succ fuel ih =>
    intro cur s hf h
    rw [gapLoop] at h
    by_cases hg : eps3 < maxH - cur
    · rw [if_pos hg] at h
      cases hvf : validFits (maxH - cur) with
      | nil =>
        rw [hvf] at h
        cases hex : s.existing with
        | nil => rw [hex] at h; simp [choice, Bind.bind, Except.bind] at h
        | cons a t =>
          rw [hex] at h
          by_cases hok : env.renderOk s.sIdx
          · simp [choice, Bind.bind, Except.bind, addSrf, hok] at h
          · simp [choice, Bind.bind, Except.bind, addSrf, hok] at h
      | cons q rest =>
        rw [hvf] at h
        simp only [choice, Bind.bind, Except.bind, addSrf] at h
        set pk := (q :: rest).get ⟨env.rand s.rIdx % (rest.length + 1),
          Nat.mod_lt _ (Nat.succ_pos _)⟩ with hpk
        have hmem : pk ∈ validFits (maxH - cur) := by
          rw [hvf, hpk]; exact List.get_mem _ _ _
        obtain ⟨hbh, _⟩ := validFits_mem hmem
        obtain ⟨_, hgeh⟩ := bucket_heights_halfint _ hbh
        have hfts : gapFuel (maxH - (cur + pk.2)) ≤ fuel := by
          have heq : maxH - (cur + pk.2) = (maxH - cur) - pk.2 := by ring
          rw [heq]
          have := gapFuel_decrease hg hgeh
          omega
        by_cases hok : env.renderOk s.sIdx
        · rw [if_pos hok] at h
          by_cases hlast : |maxH - cur - pk.2| < eps6
          · rw [if_pos hlast] at h
            cases hex : s.existing with
            | nil => rw [hex] at h; simp [choice, Bind.bind, Except.bind] at h
            | cons a t =>
              rw [hex] at h
              simp only [choice, Bind.bind, Except.bind] at h
              exact ih _ _ hfts h
          · rw [if_neg hlast] at h
            exact ih _ _ hfts h
        · rw [if_neg hok] at h
          exact ih _ _ hfts h
    · rw [if_neg hg] at h
      simp at h


lemma gapLoop_reaches_max (env : Env) (i : ℕ) (maxH : ℚ) (hm : HalfInt maxH) :
    ∀ (fuel : ℕ) (cur : ℚ) (s : St), HalfInt cur → cur ≤ maxH → s.existing ≠ [] →
      gapFuel (maxH - cur) ≤ fuel →
      ∃ s2, gapLoop env i maxH fuel cur s = .ok (maxH, s2) := by
  intro fuel
  induction fuel with
  | zero => intro cur s _ _ _ hf; have := gapFuel_pos (maxH - cur); omega
  | succ fuel ih =>
    intro cur s hcur hle hex hf
    rw [gapLoop]
    by_cases hg : eps3 < maxH - cur
    · rw [if_pos hg]
      have hgap : HalfInt (maxH - cur) := hm.sub hcur
      have hhalf : 1 / 2 ≤ maxH - cur := hgap.half_le_of_eps3_lt hg
      cases hvf : validFits (maxH - cur) with
      | nil => exact absurd hvf (validFits_ne_nil hhalf)
      | cons q rest =>
        simp only [choice, Bind.bind, Except.bind, addSrf]
        set pk := (q :: rest).get ⟨env.rand s.rIdx % (rest.length + 1),
          Nat.mod_lt _ (Nat.succ_pos _)⟩ with hpk
        have hmem : pk ∈ validFits (maxH - cur) := by
          rw [hvf, hpk]; exact List.get_mem _ _ _
        obtain ⟨hbh, hfit⟩ := validFits_mem hmem
        obtain ⟨hhalfh, hgeh⟩ := bucket_heights_halfint _ hbh
        have hle2 : pk.2 ≤ maxH - cur := HalfInt.le_of_le_add_eps6 hhalfh hgap hfit
        have hcur2 : HalfInt (cur + pk.2) := hcur.add hhalfh
        have hle3 : cur + pk.2 ≤ maxH := by linarith
        have hfts : gapFuel (maxH - (cur + pk.2)) ≤ fuel := by
          have heq : maxH - (cur + pk.2) = (maxH - cur) - pk.2 := by ring
          rw [heq]
          have := gapFuel_decrease hg hgeh
          omega
        by_cases hok : env.renderOk s.sIdx
        · rw [if_pos hok]
          by_cases hlast : |maxH - cur - pk.2| < eps6
          · rw [if_pos hlast]
            cases hexc : s.existing with
            | nil => exact absurd hexc hex
            | cons a t =>
              simp only [choice, Bind.bind, Except.bind]
              exact ih (cur + pk.2) _ hcur2 hle3 (by simp) hfts
          · rw [if_neg hlast]
            exact ih (cur + pk.2) _ hcur2 hle3 (by simpa using hex) hfts
        · rw [if_neg hok]
          exact ih (cur + pk.2) _ hcur2 hle3 (by simpa using hex) hfts
    · rw [if_neg hg]
      have hgap : HalfInt (maxH - cur) := hm.sub hcur
      have h0 : maxH - cur = 0 :=
        hgap.eq_zero_of_le_eps3 (by linarith) (not_lt.mp hg)
      have hcm : cur = maxH := by linarith
      exact ⟨s, by rw [hcm]⟩


lemma gapLoop_norender (env : Env) (i : ℕ) (maxH : ℚ) (hnr : ∀ n, env.renderOk n = false) :
    ∀ (fuel : ℕ) (cur : ℚ) (s : St) (c : ℚ) (s2 : St),
      gapLoop env i maxH fuel cur s = .ok (c, s2) → s2.srfs = s.srfs := by
  intro fuel
  induction fuel with
  | zero => intro cur s c s2 h; simp [gapLoop] at h
  | succ fuel ih =>
    intro cur s c s2 h
    rw [gapLoop] at h
    by_cases hg : eps3 < maxH - cur
    · rw [if_pos hg] at h
      cases hvf : validFits (maxH - cur) with
      | nil =>
        rw [hvf] at h
        cases hex : s.existing with
        | nil => rw [hex] at h; simp [choice, Bind.bind, Except.bind] at h
        | cons a t =>
          rw [hex] at h
          simp [choice, Bind.bind, Except.bind, addSrf, hnr s.sIdx] at h
          rw [← h.2]
      | cons q rest =>
        rw [hvf] at h
        simp only [choice, Bind.bind, Except.bind, addSrf] at h
        rw [if_neg (by simp [hnr s.sIdx])] at h
        have := ih _ _ _ _ h
        simpa using this
    · rw [if_neg hg] at h
      simp at h
      rw [← h.2]

lemma postGuard_noop {env : Env} {i : ℕ} {maxH cur : ℚ} {s : St} (hg : ¬ eps3 ≤ maxH - cur) :
    postGuard env i maxH cur s = .ok s := by
  unfold postGuard
  rw [if_neg hg]

lemma postGuard_spec {env : Env} {i : ℕ} {maxH cur : ℚ} {s s2 : St}
    (h : postGuard env i maxH cur s = .ok s2) :
    s2.existing = s.existing ∧ s2.doc = s.doc ∧ s2.yBases = s.yBases ∧
    ∃ t, s2.srfs = s.srfs ++ t ∧ ∀ p : Panel, some p ∈ t →
      p.col = i ∧ p.site = Site.filler ∧ p.layer ∈ s.existing ∧ p.y0 = cur ∧ p.y1 = maxH := by
  unfold postGuard at h
  by_cases hg : eps3 ≤ maxH - cur
  · rw [if_pos hg] at h
    cases hex : s.existing with
    | nil => rw [hex] at h; simp [choice, Bind.bind, Except.bind] at h
    | cons a t =>
      rw [hex] at h
      by_cases hok : env.renderOk s.sIdx
      · simp [choice, Bind.bind, Except.bind, addSrf, hok] at h
        subst h
        refine ⟨hex, rfl, rfl, _, rfl, ?_⟩
        intro p hp
        simp at hp
        subst hp
        exact ⟨rfl, rfl, List.getElem_mem _, rfl, by simp⟩
      · simp [choice, Bind.bind, Except.bind, addSrf, hok] at h
        subst h
        exact ⟨hex, rfl, rfl, [], by simp, by simp⟩
  · rw [if_neg hg] at h
    simp at h
    subst h
    exact ⟨rfl, rfl, rfl, [], by simp, by simp⟩

lemma lookup_mem : ∀ {l : List (ℕ × ℚ)} {a : ℕ} {b : ℚ}, l.lookup a = some b → (a, b) ∈ l := by
  intro l
  induction l with
  | nil => intro a b h; simp [List.lookup] at h
  | cons q t ih =>
    intro a b h
    obtain ⟨k, v⟩ := q
    rw [List.lookup_cons] at h
    cases hbk : (a == k) with
    | true =>
      rw [hbk] at h
      have hak : a = k := eq_of_beq hbk
      have hvb : v = b := by simpa using h
      subst hak
      subst hvb
      exact List.mem_cons_self _ _
    | false =>
      rw [hbk] at h
      exact List.mem_cons_of_mem _ (ih h)

lemma lookup_height_halfint (bi : ℕ) :
    HalfInt ((bucket_heights.lookup bi).getD 0) ∧ 0 ≤ (bucket_heights.lookup bi).getD 0 := by
  cases hlk : bucket_heights.lookup bi with
  | none => exact ⟨HalfInt.zero, le_refl 0⟩
  | some hV =>
    obtain ⟨hh, hge⟩ := bucket_heights_halfint _ (lookup_mem hlk)
    refine ⟨hh, ?_⟩
    show (0 : ℚ) ≤ hV
    linarith


lemma closeColumn_spec {env : Env} {maxH : ℚ} {s : St} {i : ℕ} {c : ℚ} {s2 : St}
    (h : closeColumn env maxH s i = .ok (c, s2)) :
    s2.existing = s.existing ∧ s2.doc = s.doc ∧ s2.yBases = s.yBases ∧
    ∃ t, s2.srfs = s.srfs ++ t ∧ ∀ p : Panel, some p ∈ t →
      p.col = i ∧ p.site ≠ Site.stack ∧
      ((p.site = Site.filler ∨ p.site = Site.fitLast) → p.layer ∈ s.existing) ∧
      (p.site = Site.filler → p.y1 - p.y0 < 1 / 2) := by
  simp only [closeColumn] at h
  cases hgl : gapLoop env i maxH (gapFuel (maxH - s.yBases.getD i 0)) (s.yBases.getD i 0) s with
  | error e => rw [hgl] at h; simp [Bind.bind, Except.bind] at h
  | ok v =>
    obtain ⟨c1, s1⟩ := v
    rw [hgl] at h
    simp only [Bind.bind, Except.bind] at h
    cases hpg : postGuard env i maxH c1 s1 with
    | error e => rw [hpg] at h; simp at h
    | ok s3 =>
      rw [hpg] at h
      simp at h
      obtain ⟨hc, hs⟩ := h
      subst hc
      subst hs
      obtain ⟨he1, hd1, hy1, hexit, t1, hsrfs1, hp1⟩ := gapLoop_spec env i maxH _ _ _ _ _ hgl
      obtain ⟨he2, hd2, hy2, t2, hsrfs2, hp2⟩ := postGuard_spec hpg
      have hspan : maxH - c1 < 1 / 2 := by
        rcases hexit with hx | hx
        · rw [eps3_eq] at hx; linarith
        · have := validFits_nil_lt hx
          rw [eps6_eq] at this
          linarith
      refine ⟨he2.trans he1, hd2.trans hd1, hy2.trans hy1, t1 ++ t2, by
        rw [hsrfs2, hsrfs1, List.append_assoc], ?_⟩
      intro p hp
      rcases List.mem_append.mp hp with hp | hp
      · exact hp1 p hp
      · obtain ⟨hpc, hsite, hlay, hy0, hy1e⟩ := hp2 p hp
        refine ⟨hpc, by rw [hsite]; simp, ?_, ?_⟩
        · intro _
          rw [he1] at hlay
          exact hlay
        · intro _
          rw [hy0, hy1e]
          exact hspan

lemma closeColumn_exact {env : Env} {maxH : ℚ} {s : St} {i : ℕ} (hm : HalfInt maxH)
    (hcur : HalfInt (s.yBases.getD i 0)) (hle : s.yBases.getD i 0 ≤ maxH)
    (hcond : s.existing ≠ [] ∨ s.yBases.getD i 0 = maxH) :
    ∃ s2, closeColumn env maxH s i = .ok (maxH, s2) ∧
      s2.existing = s.existing ∧ s2.doc = s.doc ∧ s2.yBases = s.yBases := by
  have hpg0 : ¬ eps3 ≤ maxH - maxH := by rw [sub_self, eps3_eq]; norm_num
  rcases hcond with hex | hceq
  · obtain ⟨s1, hs1⟩ := gapLoop_reaches_max env i maxH hm _ _ s hcur hle hex le_rfl
    obtain ⟨he1, hd1, hy1, _, t1, hsrfs1, _⟩ := gapLoop_spec env i maxH _ _ _ _ _ hs1
    refine ⟨s1, ?_, he1, hd1, hy1⟩
    simp only [closeColumn]
    rw [hs1]
    simp only [Bind.bind, Except.bind]
    rw [postGuard_noop hpg0]
  · refine ⟨s, ?_, rfl, rfl, rfl⟩
    simp only [closeColumn]
    rw [hceq]
    have h1 : gapFuel (maxH - maxH) = 1 := by
      unfold gapFuel
      rw [sub_self]
      norm_num
    rw [h1, gapLoop, if_neg (by rw [sub_self, eps3_eq]; norm_num)]
    simp only [Bind.bind, Except.bind]
    rw [postGuard_noop hpg0]


lemma closeFold_spec (env : Env) (maxH : ℚ) :
    ∀ (l : List ℕ) (acc : List ℚ × St) (res : List ℚ × St),
      l.foldlM (fun acc i => do
          let (cur, s) ← closeColumn env maxH acc.2 i
          pure (acc.1 ++ [cur], s)) acc = .ok res →
      res.2.existing = acc.2.existing ∧ res.2.doc = acc.2.doc ∧ res.2.yBases = acc.2.yBases ∧
      ∃ t, res.2.srfs = acc.2.srfs ++ t ∧ ∀ p : Panel, some p ∈ t →
        p.site ≠ Site.stack ∧
        ((p.site = Site.filler ∨ p.site = Site.fitLast) → p.layer ∈ acc.2.existing) ∧
        (p.site = Site.filler → p.y1 - p.y0 < 1 / 2) := by
  intro l
  induction l with
  | nil =>
    intro acc res h
    simp [List.foldlM, pure, Except.pure] at h
    subst h
    exact ⟨rfl, rfl, rfl, [], by simp, by simp⟩
  | cons a l ih =>
    intro acc res h
    simp only [List.foldlM] at h
    cases hcc : closeColumn env maxH acc.2 a with
    | error e =>
      rw [hcc] at h
      simp [Bind.bind, Except.bind] at h
    | ok v =>
      obtain ⟨cur, s1⟩ := v
      rw [hcc] at h
      simp only [Bind.bind, Except.bind, pure, Except.pure] at h
      obtain ⟨he2, hd2, hy2, t2, hsrfs2, hp2⟩ := ih _ _ h
      obtain ⟨he1, hd1, hy1, t1, hsrfs1, hp1⟩ := closeColumn_spec hcc
      refine ⟨he2.trans he1, hd2.trans hd1, hy2.trans hy1, t1 ++ t2, by
        rw [hsrfs2, hsrfs1, List.append_assoc], ?_⟩
      intro p hp
      rcases List.mem_append.mp hp with hp | hp
      · obtain ⟨_, hsite, hlay, hspan⟩ := hp1 p hp
        exact ⟨hsite, hlay, hspan⟩
      · obtain ⟨hsite, hlay, hspan⟩ := hp2 p hp
        refine ⟨hsite, ?_, hspan⟩
        intro hs
        have := hlay hs
        rw [he1] at this
        exact this

lemma closeFold_exact (env : Env) (maxH : ℚ) (hm : HalfInt maxH) :
    ∀ (l : List ℕ) (fin0 : List ℚ) (s : St),
      (∀ i ∈ l, HalfInt (s.yBases.getD i 0) ∧ s.yBases.getD i 0 ≤ maxH) →
      (s.existing ≠ [] ∨ ∀ i ∈ l, s.yBases.getD i 0 = maxH) →
      ∃ s2, l.foldlM (fun acc i => do
          let (cur, s) ← closeColumn env maxH acc.2 i
          pure (acc.1 ++ [cur], s)) (fin0, s) = .ok (fin0 ++ List.replicate l.length maxH, s2) ∧
        s2.existing = s.existing ∧ s2.doc = s.doc ∧ s2.yBases = s.yBases := by
  intro l
  induction l with
  | nil =>
    intro fin0 s _ _
    exact ⟨s, by simp [List.foldlM, pure, Except.pure], rfl, rfl, rfl⟩
  | cons a l ih =>
    intro fin0 s hcond hex
    have hca := hcond a (List.mem_cons_self _ _)
    have hex1 : s.existing ≠ [] ∨ s.yBases.getD a 0 = maxH := by
      rcases hex with hx | hx
      · exact Or.inl hx
      · exact Or.inr (hx a (List.mem_cons_self _ _))
    obtain ⟨s1, hs1, he1, hd1, hy1⟩ := closeColumn_exact hm hca.1 hca.2 hex1
    obtain ⟨s2, hs2, he2, hd2, hy2⟩ := ih (fin0 ++ [maxH]) s1
      (by
        intro j hj
        rw [hy1]
        exact hcond j (List.mem_cons_of_mem _ hj))
      (by
        rcases hex with hx | hx
        · exact Or.inl (by rw [he1]; exact hx)
        · refine Or.inr ?_
          intro j hj
          rw [hy1]
          exact hx j (List.mem_cons_of_mem _ hj))
    refine ⟨s2, ?_, he2.trans he1, hd2.trans hd1, hy2.trans hy1⟩
    have hlist : fin0 ++ [maxH] ++ List.replicate l.length maxH =
        fin0 ++ List.replicate (a :: l).length maxH := by
      simp [List.replicate_succ]
    rw [hlist] at hs2
    simp only [List.foldlM]
    rw [hs1]
    exact hs2

lemma closePhase_spec {env : Env} {maxH : ℚ} {x : ℕ} {s : St} {finals : List ℚ} {s2 : St}
    (h : closePhase env maxH x s = .ok (finals, s2)) :
    s2.existing = s.existing ∧ s2.doc = s.doc ∧ s2.yBases = s.yBases ∧
    ∃ t, s2.srfs = s.srfs ++ t ∧ ∀ p : Panel, some p ∈ t →
      p.site ≠ Site.stack ∧
      ((p.site = Site.filler ∨ p.site = Site.fitLast) → p.layer ∈ s.existing) ∧
      (p.site = Site.filler → p.y1 - p.y0 < 1 / 2) := by
  unfold closePhase at h
  exact closeFold_spec env maxH (List.range x) ([], s) (finals, s2) h

lemma closePhase_exact {env : Env} {maxH : ℚ} {x : ℕ} {s : St} (hm : HalfInt maxH)
    (hcond : ∀ i, i < x → HalfInt (s.yBases.getD i 0) ∧ s.yBases.getD i 0 ≤ maxH)
    (hex : s.existing ≠ [] ∨ ∀ i, i < x → s.yBases.getD i 0 = maxH) :
    ∃ s2, closePhase env maxH x s = .ok (List.replicate x maxH, s2) ∧
      s2.existing = s.existing ∧ s2.doc = s.doc ∧ s2.yBases = s.yBases := by
  obtain ⟨s2, hs2, he, hd, hy⟩ := closeFold_exact env maxH hm (List.range x) [] s
    (fun i hi => hcond i (List.mem_range.mp hi))
    (by
      rcases hex with hx | hx
      · exact Or.inl hx
      · exact Or.inr fun i hi => hx i (List.mem_range.mp hi))
  refine ⟨s2, ?_, he, hd, hy⟩
  unfold closePhase
  rw [hs2]
  simp


lemma getD_mem_of_lt {l : List ℚ} {i : ℕ} (hi : i < l.length) : l.getD i 0 ∈ l := by
  rw [List.getD_eq_getElem?_getD, List.getElem?_eq_getElem hi]
  simp only [Option.getD_some]
  exact List.getElem_mem _

lemma halfint_getD {l : List ℚ} (hb : ∀ b ∈ l, HalfInt b) (i : ℕ) : HalfInt (l.getD i 0) := by
  by_cases hi : i < l.length
  · exact hb _ (getD_mem_of_lt hi)
  · rw [List.getD_eq_getElem?_getD, List.getElem?_eq_none (by omega)]
    exact HalfInt.zero

lemma stackCell_yBases (env : Env) (i : ℕ) (s : St) :
    (stackCell env i s).yBases = s.yBases.set i
      (s.yBases.getD i 0 + (bucket_heights.lookup (1 + env.rand s.rIdx % num_buckets)).getD 0) := by
  simp only [stackCell, randint1, addSrf]
  split_ifs <;> rfl

lemma stackCell_yBases_length (env : Env) (i : ℕ) (s : St) :
    (stackCell env i s).yBases.length = s.yBases.length := by
  rw [stackCell_yBases]
  exact List.length_set _ _ _

lemma stackCell_srfs_length (env : Env) (i : ℕ) (s : St) :
    (stackCell env i s).srfs.length = s.srfs.length + 1 := by
  simp only [stackCell, randint1, addSrf]
  split_ifs <;> simp

lemma stackCell_existing (env : Env) (i : ℕ) (s : St) :
    (1 + env.rand s.rIdx % num_buckets) ∈ (stackCell env i s).existing ∧
    ((stackCell env i s).existing = s.existing ∨
      (stackCell env i s).existing = s.existing ++ [1 + env.rand s.rIdx % num_buckets]) := by
  simp only [stackCell, randint1, addSrf]
  split_ifs with h1 h2
  all_goals first
    | exact ⟨h2, Or.inl rfl⟩
    | exact ⟨by simp, Or.inr rfl⟩

lemma stackCell_halfint (env : Env) (i : ℕ) (s : St) (hb : ∀ b ∈ s.yBases, HalfInt b) :
    ∀ b ∈ (stackCell env i s).yBases, HalfInt b := by
  rw [stackCell_yBases]
  intro b hbm
  rcases List.mem_or_eq_of_mem_set hbm with h | h
  · exact hb b h
  · subst h
    exact (halfint_getD hb i).add (lookup_height_halfint _).1

lemma stackFold_props (env : Env) :
    ∀ (l : List ℕ) (s : St),
      ((l.foldl (fun s i => stackCell env i s) s).yBases.length = s.yBases.length) ∧
      ((∀ b ∈ s.yBases, HalfInt b) →
        ∀ b ∈ (l.foldl (fun s i => stackCell env i s) s).yBases, HalfInt b) ∧
      (∃ t, (l.foldl (fun s i => stackCell env i s) s).existing = s.existing ++ t) ∧
      (l ≠ [] → (l.foldl (fun s i => stackCell env i s) s).existing ≠ []) ∧
      (s.existing ≠ [] → (l.foldl (fun s i => stackCell env i s) s).existing ≠ []) ∧
      ((l.foldl (fun s i => stackCell env i s) s).srfs.length = s.srfs.length + l.length) := by
  intro l
  induction l with
  | nil =>
    intro s
    exact ⟨rfl, fun h => h, ⟨[], by simp⟩, fun h => absurd rfl h, fun h => h, by simp⟩
  | cons a l ih =>
    intro s
    obtain ⟨ihlen, ihhalf, ⟨t2, ihex⟩, ihne, ihpres, ihsrfs⟩ := ih (stackCell env a s)
    obtain ⟨hmem, hor⟩ := stackCell_existing env a s
    have hne : (stackCell env a s).existing ≠ [] := List.ne_nil_of_mem hmem
    have hpres : ((a :: l).foldl (fun s i => stackCell env i s) s).existing ≠ [] := by
      rw [List.foldl_cons]
      rw [ihex]
      exact List.append_ne_nil_of_left_ne_nil hne _
    refine ⟨?_, ?_, ?_, fun _ => hpres, fun _ => hpres, ?_⟩
    · rw [List.foldl_cons, ihlen, stackCell_yBases_length]
    · intro hb
      rw [List.foldl_cons]
      exact ihhalf (stackCell_halfint env a s hb)
    · rw [List.foldl_cons, ihex]
      rcases hor with h | h
      · rw [h]
        exact ⟨t2, rfl⟩
      · rw [h, List.append_assoc]
        exact ⟨_, rfl⟩
    · rw [List.foldl_cons, ihsrfs, stackCell_srfs_length]
      simp
      omega

lemma stackRow_props (env : Env) (x : ℕ) (s : St) :
    ((stackRow env x s).yBases.length = s.yBases.length) ∧
    ((∀ b ∈ s.yBases, HalfInt b) → ∀ b ∈ (stackRow env x s).yBases, HalfInt b) ∧
    (∃ t, (stackRow env x s).existing = s.existing ++ t) ∧
    (1 ≤ x → (stackRow env x s).existing ≠ []) ∧
    (s.existing ≠ [] → (stackRow env x s).existing ≠ []) ∧
    ((stackRow env x s).srfs.length = s.srfs.length + x) := by
  have h := stackFold_props env (List.range x) s
  have hlen : (List.range x).length = x := List.length_range x
  refine ⟨h.1, h.2.1, h.2.2.1, ?_, h.2.2.2.2.1, by rw [stackRow]; rw [h.2.2.2.2.2, hlen]⟩
  intro hx
  exact h.2.2.2.1 (by
    intro hnil
    rw [List.range_eq_nil] at hnil
    omega)

lemma stackPhase_props (env : Env) (x y : ℕ) (s : St) :
    ((stackPhase env x y s).yBases.length = s.yBases.length) ∧
    ((∀ b ∈ s.yBases, HalfInt b) → ∀ b ∈ (stackPhase env x y s).yBases, HalfInt b) ∧
    (1 ≤ x → 1 ≤ y → (stackPhase env x y s).existing ≠ []) ∧
    ((stackPhase env x y s).srfs.length = s.srfs.length + y * x) := by
  unfold stackPhase
  induction y generalizing s with
  | zero => exact ⟨rfl, fun h => h, by omega, by simp⟩
  | succ y ih =>
    rw [List.range_succ, List.foldl_append, List.foldl_cons, List.foldl_nil]
    obtain ⟨ihlen, ihhalf, ihne, ihsrfs⟩ := ih s
    obtain ⟨rlen, rhalf, _, rne1, rpres, rsrfs⟩ :=
      stackRow_props env x ((List.range y).foldl (fun s _ => stackRow env x s) s)
    refine ⟨by rw [rlen, ihlen], fun hb => rhalf (ihhalf hb), ?_, ?_⟩
    · intro hx _
      exact rne1 hx
    · rw [rsrfs, ihsrfs]
      ring


lemma pyMax_foldl_spec : ∀ (l : List ℚ) (a : ℚ),
    (∀ b ∈ a :: l, b ≤ l.foldl max a) ∧ l.foldl max a ∈ a :: l := by
  intro l
  induction l with
  | nil =>
    intro a
    constructor
    · intro b hb
      simp at hb
      subst hb
      exact le_refl _
    · simp
  | cons c t ih =>
    intro a
    obtain ⟨hle, hmem⟩ := ih (max a c)
    rw [List.foldl_cons]
    constructor
    · intro b hb
      rcases List.mem_cons.mp hb with rfl | hb2
      · exact le_trans (le_max_left _ _) (hle _ (List.mem_cons_self _ _))
      · rcases List.mem_cons.mp hb2 with rfl | hb3
        · exact le_trans (le_max_right _ _) (hle _ (List.mem_cons_self _ _))
        · exact hle _ (List.mem_cons_of_mem _ hb3)
    · rcases List.mem_cons.mp hmem with h | h
      · rcases max_choice a c with hm | hm
        · rw [h, hm]
          exact List.mem_cons_self _ _
        · rw [h, hm]
          exact List.mem_cons_of_mem _ (List.mem_cons_self _ _)
      · exact List.mem_cons_of_mem _ (List.mem_cons_of_mem _ h)

lemma pyMax_spec {l : List ℚ} {a : ℚ} {t : List ℚ} (h : l = a :: t) :
    ∃ m, pyMax l = .ok m ∧ m ∈ l ∧ ∀ b ∈ l, b ≤ m := by
  subst h
  exact ⟨_, rfl, (pyMax_foldl_spec t a).2, (pyMax_foldl_spec t a).1⟩

lemma pavPattern_run (env : Env) (x y : ℕ) (hx : 1 ≤ x) :
    ∃ r, pavPattern env x y = .ok r ∧ r.finals = List.replicate x r.maxH ∧ HalfInt r.maxH := by
  obtain ⟨plen, phalf, pne, psrfs⟩ := stackPhase_props env x y (initSt env x)
  set s1 := stackPhase env x y (initSt env x) with hs1def
  have hb0 : ∀ b ∈ (initSt env x).yBases, HalfInt b := by
    intro b hb
    simp only [initSt] at hb
    rw [List.eq_of_mem_replicate hb]
    exact HalfInt.zero
  have hbs : ∀ b ∈ s1.yBases, HalfInt b := phalf hb0
  have hlen : s1.yBases.length = x := by
    rw [plen]
    simp [initSt]
  cases hyl : s1.yBases with
  | nil =>
    rw [hyl] at hlen
    simp at hlen
    omega
  | cons a t =>
    obtain ⟨m, hM, hmm, hle⟩ := pyMax_spec hyl
    have hmH : HalfInt m := hbs m hmm
    have hcond : ∀ i, i < x → HalfInt (s1.yBases.getD i 0) ∧ s1.yBases.getD i 0 ≤ m := by
      intro i hi
      have himem : s1.yBases.getD i 0 ∈ s1.yBases := getD_mem_of_lt (by rw [hlen]; exact hi)
      exact ⟨hbs _ himem, hle _ himem⟩
    have hex : s1.existing ≠ [] ∨ ∀ i, i < x → s1.yBases.getD i 0 = m := by
      rcases Nat.eq_zero_or_pos y with hy0 | hy1
      · right
        subst hy0
        have hs1eq : s1 = initSt env x := rfl
        have hm0 : m = 0 := by
          have : m ∈ s1.yBases := hmm
          rw [hs1eq] at this
          simp only [initSt] at this
          exact List.eq_of_mem_replicate this
        intro i hi
        rw [hs1eq, hm0]
        simp only [initSt]
        rw [List.getD_eq_getElem?_getD]
        rcases Nat.lt_or_ge i x with hix | hix
        · rw [List.getElem?_eq_getElem (by simpa using hix)]
          simp
        · rw [List.getElem?_eq_none (by simpa using hix)]
          simp
      · left
        exact pne hx hy1
    obtain ⟨s2, hclose, hce, hcd, hcy⟩ := closePhase_exact hmH hcond hex
    refine ⟨RunResult.mk s2.srfs (List.replicate x m) m s2.existing s2.doc, ?_, rfl, hmH⟩
    simp only [pavPattern]
    rw [← hs1def, hM]
    simp only [Bind.bind, Except.bind]
    rw [hclose]

lemma pavPattern_zero (env : Env) (y : ℕ) : pavPattern env 0 y = .error .valueError := by
  obtain ⟨plen, _, _, _⟩ := stackPhase_props env 0 y (initSt env 0)
  have h2 : (stackPhase env 0 y (initSt env 0)).yBases = [] := by
    apply List.eq_nil_of_length_eq_zero
    rw [plen]
    simp [initSt]
  simp only [pavPattern]
  rw [h2]
  rfl


/-- The panels of the output list that were created (non-null), restricted to
column `i` — used to state per-column contiguity. -/
def colStackPanels (i : ℕ) (l : List (Option Panel)) : List Panel :=
  (l.filterMap id).filter fun p => decide (p.col = i)

/-- `spansTo a l b`: the panels of `l`, in order, tile the vertical interval
from `a` to `b` without gaps or overlaps. -/
def spansTo : ℚ → List Panel → ℚ → Prop
  | a, [], b => a = b
  | a, p :: t, b => p.y0 = a ∧ spansTo p.y1 t b

lemma colStackPanels_append_some (i : ℕ) (l : List (Option Panel)) (p : Panel) :
    colStackPanels i (l ++ [some p]) =
      colStackPanels i l ++ if p.col = i then [p] else [] := by
  unfold colStackPanels
  rw [List.filterMap_append, List.filter_append]
  congr 1
  simp only [List.filterMap, List.filterMap_cons, id]
  split_ifs with h <;> simp [h]

lemma colStackPanels_append_none (i : ℕ) (l : List (Option Panel)) :
    colStackPanels i (l ++ [none]) = colStackPanels i l := by
  unfold colStackPanels
  rw [List.filterMap_append]
  simp

lemma spansTo_append {a b : ℚ} {l : List Panel} {p : Panel} (h : spansTo a l b) (hp : p.y0 = b) :
    spansTo a (l ++ [p]) p.y1 := by
  induction l generalizing a with
  | nil =>
    have ha : a = b := h
    exact ⟨by rw [hp, ha], rfl⟩
  | cons q t ih =>
    obtain ⟨h1, h2⟩ := h
    exact ⟨h1, ih h2⟩

lemma getD_set_self {l : List ℚ} {j : ℕ} (hj : j < l.length) (v : ℚ) :
    (l.set j v).getD j 0 = v := by
  rw [List.getD_eq_get?, List.get?_set_eq_of_lt v hj]
  rfl

lemma getD_set_ne {l : List ℚ} {i j : ℕ} (h : i ≠ j) (v : ℚ) :
    (l.set i v).getD j 0 = l.getD j 0 := by
  rw [List.getD_eq_get?, List.getD_eq_get?, List.get?_set_ne v l h]

lemma stackCell_srfs_ok (env : Env) (i : ℕ) (s : St) (hok : env.renderOk s.sIdx = true) :
    (stackCell env i s).srfs = s.srfs ++ [some (Panel.mk i (s.yBases.getD i 0)
      (s.yBases.getD i 0 + (bucket_heights.lookup (1 + env.rand s.rIdx % num_buckets)).getD 0)
      (1 + env.rand s.rIdx % num_buckets) Site.stack)] := by
  simp only [stackCell, randint1, addSrf]
  split_ifs <;> simp [hok]

lemma stackCell_srfs_fail (env : Env) (i : ℕ) (s : St) (hok : env.renderOk s.sIdx = false) :
    (stackCell env i s).srfs = s.srfs ++ [none] := by
  simp only [stackCell, randint1, addSrf]
  split_ifs <;> simp_all

/-- The stacking invariant: the column vector has the right length and, for
every column, the created panels of that column tile `[0, runningHeight)`. -/
def StackInv (x : ℕ) (s : St) : Prop :=
  s.yBases.length = x ∧
  ∀ i, i < x → spansTo 0 (colStackPanels i s.srfs) (s.yBases.getD i 0)

lemma stackCell_inv (env : Env) (hr : ∀ n, env.renderOk n = true) (x : ℕ) (i : ℕ) (hi : i < x)
    (s : St) (hinv : StackInv x s) : StackInv x (stackCell env i s) := by
  obtain ⟨hlen, hspans⟩ := hinv
  constructor
  · rw [stackCell_yBases_length]
    exact hlen
  · intro j hj
    rw [stackCell_srfs_ok env i s (hr s.sIdx), stackCell_yBases]
    by_cases hji : j = i
    · subst hji
      rw [colStackPanels_append_some, if_pos rfl, getD_set_self (by rw [hlen]; exact hj)]
      exact spansTo_append (hspans j hj) rfl
    · rw [colStackPanels_append_some, if_neg (by simpa using fun h => hji h.symm),
        List.append_nil, getD_set_ne (fun h => hji h.symm)]
      exact hspans j hj

lemma stackFold_inv (env : Env) (hr : ∀ n, env.renderOk n = true) (x : ℕ) :
    ∀ (l : List ℕ) (s : St), (∀ i ∈ l, i < x) → StackInv x s →
      StackInv x (l.foldl (fun s i => stackCell env i s) s) := by
  intro l
  induction l with
  | nil => exact fun s _ h => h
  | cons a l ih =>
    intro s hmem hinv
    rw [List.foldl_cons]
    exact ih _ (fun i hi => hmem i (List.mem_cons_of_mem _ hi))
      (stackCell_inv env hr x a (hmem a (List.mem_cons_self _ _)) s hinv)

lemma initSt_inv (env : Env) (x : ℕ) : StackInv x (initSt env x) := by
  constructor
  · simp [initSt]
  · intro i hi
    have hD : ((initSt env x).yBases).getD i 0 = 0 := by
      simp only [initSt]
      rw [List.getD_eq_getElem?_getD]
      rcases Nat.lt_or_ge i x with hix | hix
      · rw [List.getElem?_eq_getElem (by simpa using hix)]
        simp
      · rw [List.getElem?_eq_none (by simpa using hix)]
        simp
    rw [hD]
    exact rfl

lemma stackPhase_inv (env : Env) (hr : ∀ n, env.renderOk n = true) (x y : ℕ) :
    StackInv x (stackPhase env x y (initSt env x)) := by
  unfold stackPhase
  induction y with
  | zero => exact initSt_inv env x
  | succ y ih =>
    rw [List.range_succ, List.foldl_append, List.foldl_cons, List.foldl_nil]
    exact stackFold_inv env hr x (List.range x) _ (fun i hi => List.mem_range.mp hi) ih

lemma bucket_lookup_mem : ∀ bi, 1 ≤ bi → bi ≤ num_buckets →
    (bi, ((bucket_heights.lookup bi).getD 0 : ℚ)) ∈ bucket_heights := by
  intro bi h1 h2
  rw [num_buckets_eq] at h2
  interval_cases bi <;> decide


/-- Constant random stream, all renders succeed, empty document. -/
def env0 : Env := Env.mk (fun _ => 0) (fun _ => true) []

/-- Random stream driving a 2-column, 1-row run where column 0 stacks bucket 1
(height 0.5), column 1 stacks bucket 6 (height 3.0), and the gap closer picks
the exact fit (5, 2.5) for column 0. -/
def rands3 : List ℕ := [0, 0, 0, 0, 5, 0, 0, 0, 4]

/-- As `rands3`, but the renderer fails exactly on the third surface call
(the gap-closing panel of column 0). -/
def env3 : Env := Env.mk (fun n => rands3.getD n 0) (fun n => decide (n < 2)) []

/-- Random stream driving a 2-column, 1-row run where the gap closer first
picks bucket 2 (height 1.0, not final) and then bucket 3 (height 1.5, final)
for column 0. -/
def rands4 : List ℕ := [0, 0, 0, 0, 5, 0, 0, 0, 1, 2, 0]

/-- All renders succeed. -/
def env4 : Env := Env.mk (fun n => rands4.getD n 0) (fun _ => true) []

/-- Oracle for per-column gap-closer evaluations. -/
def envB : Env := Env.mk (fun _ => 0) (fun _ => true) []

/-- A column state stalled at height 0 with registry `[1]`, to be closed
against `maxHeight = 0.3`: the gap 0.3 admits no catalog fit. -/
def stB : St := St.mk 0 0 [1] [1] [0] []

/-- Claim C1 (code bug): at a column whose gap `0.3` admits no catalog fit,
the fallback emits its exactly-sized filler and breaks, but the source never
updates `current_y` (it stays `0` instead of being set to `maxHeight = 0.3`),
so the residual guard after the loop still sees `gap = 0.3 ≥ 0.001` and
emits a second, coincident filler panel over the same span `[0, 0.3)`. -/
theorem break_path_double_filler :
    closeColumn envB (3 / 10) stB 0 =
      .ok (0, St.mk 2 2 [1] [1] [0]
        [some (Panel.mk 0 0 (3 / 10) 1 Site.filler),
         some (Panel.mk 0 0 (3 / 10) 1 Site.filler)]) := by decide

/-- Claim C2: for every run with at least one column the gap closer succeeds
and every column's final running height (the loop variable `current_y`)
equals `max_height` exactly — in particular within 1e-6. -/
theorem gap_closer_aligns_columns (env : Env) (x y : ℕ) (hx : 1 ≤ x) :
    ∃ r, pavPattern env x y = .ok r ∧ r.finals.length = x ∧
      ∀ f ∈ r.finals, f = r.maxH := by
  obtain ⟨r, hok, hfin, _⟩ := pavPattern_run env x y hx
  refine ⟨r, hok, ?_, ?_⟩
  · rw [hfin]
    simp
  · rw [hfin]
    intro f hf
    exact List.eq_of_mem_replicate hf

/-- Witness for `gap_closer_aligns_columns` at a concrete run. -/
theorem gap_closer_aligns_columns_witness :
    ∃ r, pavPattern env0 2 1 = .ok r ∧ r.finals.length = 2 ∧
      ∀ f ∈ r.finals, f = r.maxH :=
  gap_closer_aligns_columns env0 2 1 (by norm_num)

/-- Counterexample to claim C3 as stated: in the `env3` run the gap closer
emits a panel that raises column 0 from height 0.5 to 3.0 (its final running
height is 3), but because the renderer fails on that call the record is NOT
included in the output sequence — only the two stacking records appear.  The
run itself does not abort. -/
theorem render_failure_drops_record :
    srfsOf (pavPattern env3 2 1) = [some (Panel.mk 0 0 (1 / 2) 1 Site.stack),
      some (Panel.mk 1 0 3 6 Site.stack)] ∧
    finalsOf (pavPattern env3 2 1) = [3, 3] := by decide

/-- Claim C3 as amended: renderer failures are non-fatal — the run always
succeeds regardless of render outcomes; a stacking-phase render failure
appends a null entry in place of the record, and a gap-closing-phase render
failure appends nothing at all (the record is omitted from the output). -/
theorem render_failure_nonfatal :
    (∀ (env : Env) (x y : ℕ), 1 ≤ x → ∃ r, pavPattern env x y = .ok r) ∧
    (∀ (env : Env) (i : ℕ) (s : St), env.renderOk s.sIdx = false →
      (stackCell env i s).srfs = s.srfs ++ [none]) ∧
    (∀ (env : Env) (i : ℕ) (maxH : ℚ) (fuel : ℕ) (cur : ℚ) (s : St) (c : ℚ) (s2 : St),
      (∀ n, env.renderOk n = false) →
      gapLoop env i maxH fuel cur s = .ok (c, s2) → s2.srfs = s.srfs) := by
  refine ⟨?_, stackCell_srfs_fail, ?_⟩
  · intro env x y hx
    obtain ⟨r, hok, _⟩ := pavPattern_run env x y hx
    exact ⟨r, hok⟩
  · intro env i maxH fuel cur s c s2 hnr h
    exact gapLoop_norender env i maxH hnr fuel cur s c s2 h

/-- The no-render oracle. -/
def envF : Env := Env.mk (fun _ => 0) (fun _ => false) []

/-- Witness for `render_failure_nonfatal` at concrete inputs. -/
theorem render_failure_nonfatal_witness :
    (∃ r, pavPattern envF 1 1 = .ok r) ∧
    (stackCell envF 0 (initSt envF 1)).srfs = (initSt envF 1).srfs ++ [none] ∧
    stB.srfs = stB.srfs :=
  ⟨(render_failure_nonfatal).1 envF 1 1 (by norm_num),
   (render_failure_nonfatal).2.1 envF 0 (initSt envF 1) rfl,
   (render_failure_nonfatal).2.2 envF 0 0 1 0 stB 0 stB (fun _ => rfl) (by decide)⟩

/-- Counterexample to claim C4 as stated: in the `env4` run the gap closer
emits a non-final catalog-fit panel tagged with bucket grouping 2, although
the registry built during stacking is `[1, 6]` — the tag is not an existing
grouping. -/
theorem fit_panel_tag_outside_registry :
    some (Panel.mk 0 (1 / 2) (3 / 2) 2 Site.fit) ∈ srfsOf (pavPattern env4 2 1) ∧
    existingOf (pavPattern env4 2 1) = [1, 6] ∧
    (2 : ℕ) ∉ ([1, 6] : List ℕ) := by decide

/-- Claim C4 as amended: during gap closing the registry never changes, and
every filler panel and every final (`is_last_tile`) catalog-fit panel is
tagged with a grouping from the registry; only non-final catalog-fit panels
are tagged by their bucket index, which need not be in the registry. -/
theorem gap_closer_registry_readonly (env : Env) (maxH : ℚ) (x : ℕ) (s : St)
    (finals : List ℚ) (s2 : St) (h : closePhase env maxH x s = .ok (finals, s2)) :
    s2.existing = s.existing ∧
    ∃ t, s2.srfs = s.srfs ++ t ∧ ∀ p : Panel, some p ∈ t →
      (p.site = Site.filler ∨ p.site = Site.fitLast) → p.layer ∈ s.existing := by
  obtain ⟨he, _, _, t, hsrfs, hp⟩ := closePhase_spec h
  exact ⟨he, t, hsrfs, fun p hp2 hs => (hp p hp2).2.1 hs⟩

/-- Witness for `gap_closer_registry_readonly` at a concrete gap-closing run
that does emit filler panels. -/
theorem gap_closer_registry_readonly_witness :
    (St.mk 2 2 [1] [1] [0]
        [some (Panel.mk 0 0 (3 / 10) 1 Site.filler),
         some (Panel.mk 0 0 (3 / 10) 1 Site.filler)]).existing = stB.existing ∧
    ∃ t, (St.mk 2 2 [1] [1] [0]
        [some (Panel.mk 0 0 (3 / 10) 1 Site.filler),
         some (Panel.mk 0 0 (3 / 10) 1 Site.filler)]).srfs = stB.srfs ++ t ∧
      ∀ p : Panel, some p ∈ t →
        (p.site = Site.filler ∨ p.site = Site.fitLast) → p.layer ∈ stB.existing :=
  gap_closer_registry_readonly envB (3 / 10) 1 stB [0] _ (by decide)

/-- Counterexample to claim C5 as stated: `yNum = 0` is not a positive
integer, yet the run does not fail at all (and certainly not with
`InvalidConfig`, which the source never raises): it returns successfully
with an empty output. -/
theorem no_invalid_config_check :
    pavPattern env0 1 0 = .ok (RunResult.mk [] [0] 0 [] []) := by decide

/-- Claim C5 as amended: the source performs no configuration validation and
has no `InvalidConfig` failure; its catalog parameters are hardcoded (step
0.5 > 0, max 3.0 ≥ base 0.5).  `xNum = 0` fails with Python's `ValueError`
from `max([])`, while any `xNum ≥ 1` run succeeds for every `yNum`,
including `yNum = 0`. -/
theorem config_failure_modes :
    (∀ (env : Env) (y : ℕ), pavPattern env 0 y = .error .valueError) ∧
    (∀ (env : Env) (x y : ℕ), 1 ≤ x → ∃ r, pavPattern env x y = .ok r) := by
  refine ⟨pavPattern_zero, ?_⟩
  intro env x y hx
  obtain ⟨r, hok, _⟩ := pavPattern_run env x y hx
  exact ⟨r, hok⟩

/-- Witness for `config_failure_modes` at concrete inputs. -/
theorem config_failure_modes_witness :
    pavPattern env0 0 3 = .error .valueError ∧ ∃ r, pavPattern env0 1 0 = .ok r :=
  ⟨(config_failure_modes).1 env0 3, (config_failure_modes).2 env0 1 0 (by norm_num)⟩

/-- Claim C7: the stacker peels rows in the outer loop (one more row is one
more `stackRow` applied after the previous rows); each (row, column) cell
draws a bucket index in `1..num_buckets` from the random stream, looks up
its height `r` in the catalog, spans a panel from the column's running
height `y0` to `y0 + r`, advances the running height by `r`, and registers
the bucket's grouping; and when every render succeeds, the created panels of
each column tile `[0, runningHeight)` contiguously. -/
theorem stacker_spec :
    (∀ (env : Env) (x y : ℕ) (s : St),
      stackPhase env x (y + 1) s = stackRow env x (stackPhase env x y s)) ∧
    (∀ (env : Env) (i : ℕ) (s : St), ∃ bi r,
      bi = 1 + env.rand s.rIdx % num_buckets ∧ 1 ≤ bi ∧ bi ≤ num_buckets ∧
      (bi, r) ∈ bucket_heights ∧
      (stackCell env i s).yBases = s.yBases.set i (s.yBases.getD i 0 + r) ∧
      bi ∈ (stackCell env i s).existing ∧
      ((stackCell env i s).srfs = s.srfs ++ [some (Panel.mk i (s.yBases.getD i 0)
          (s.yBases.getD i 0 + r) bi Site.stack)] ∨
        (stackCell env i s).srfs = s.srfs ++ [none])) ∧
    (∀ (env : Env) (x y : ℕ), (∀ n, env.renderOk n = true) → ∀ i, i < x →
      spansTo 0 (colStackPanels i (stackPhase env x y (initSt env x)).srfs)
        ((stackPhase env x y (initSt env x)).yBases.getD i 0)) := by
  refine ⟨?_, ?_, ?_⟩
  · intro env x y s
    unfold stackPhase
    rw [List.range_succ, List.foldl_append, List.foldl_cons, List.foldl_nil]
  · intro env i s
    have hmod : env.rand s.rIdx % num_buckets < num_buckets :=
      Nat.mod_lt _ (by rw [num_buckets_eq]; omega)
    refine ⟨1 + env.rand s.rIdx % num_buckets,
      ((bucket_heights.lookup (1 + env.rand s.rIdx % num_buckets)).getD 0 : ℚ),
      rfl, by omega, by omega,
      bucket_lookup_mem _ (by omega) (by omega),
      stackCell_yBases env i s,
      (stackCell_existing env i s).1, ?_⟩
    cases hok : env.renderOk s.sIdx with
    | true => exact Or.inl (stackCell_srfs_ok env i s hok)
    | false => exact Or.inr (stackCell_srfs_fail env i s hok)
  · intro env x y hr i hix
    exact (stackPhase_inv env hr x y).2 i hix

/-- Witness for `stacker_spec` at a concrete run. -/
theorem stacker_spec_witness :
    spansTo 0 (colStackPanels 0 (stackPhase env0 1 1 (initSt env0 1)).srfs)
      ((stackPhase env0 1 1 (initSt env0 1)).yBases.getD 0 0) :=
  (stacker_spec).2.2 env0 1 1 (fun _ => rfl) 0 (by norm_num)

/-- Claim C8: in the catalog-fit branch the chosen fit is exactly what
`random.choice(valid_fits)` returns; the loop continues from `current_y +
h`; and a successfully rendered panel is tagged with a grouping drawn
uniformly at random from the whole registry when the chosen height closes
the gap within 1e-6 (`is_last_tile`), and with the grouping of the chosen
bucket index otherwise. -/
theorem fit_branch_tagging (env : Env) (i : ℕ) (maxH : ℚ) (fuel : ℕ) (cur : ℚ) (s : St)
    (hg : eps3 < maxH - cur) (q : ℕ × ℚ) (rest : List (ℕ × ℚ))
    (hvf : validFits (maxH - cur) = q :: rest)
    (hok : env.renderOk s.sIdx = true) (a : ℕ) (t : List ℕ) (hex : s.existing = a :: t) :
    ∃ pk s1, choice env s (validFits (maxH - cur)) = .ok (pk, s1) ∧
      pk ∈ validFits (maxH - cur) ∧
      ∃ s2, gapLoop env i maxH (fuel + 1) cur s = gapLoop env i maxH fuel (cur + pk.2) s2 ∧
        ((|maxH - cur - pk.2| < eps6 ∧ ∃ lay ∈ s.existing,
            s2.srfs = s.srfs ++ [some (Panel.mk i cur (cur + pk.2) lay Site.fitLast)]) ∨
          (¬ |maxH - cur - pk.2| < eps6 ∧
            s2.srfs = s.srfs ++ [some (Panel.mk i cur (cur + pk.2) pk.1 Site.fit)])) := by
  rw [hvf]
  refine ⟨(q :: rest).get ⟨env.rand s.rIdx % (rest.length + 1), Nat.mod_lt _ (Nat.succ_pos _)⟩,
    { s with rIdx := s.rIdx + 1 }, rfl, List.get_mem _ _ _, ?_⟩
  rw [gapLoop, if_pos hg, hvf]
  simp only [choice, Bind.bind, Except.bind, addSrf]
  rw [if_pos hok]
  by_cases hlast : |maxH - cur -
      ((q :: rest).get ⟨env.rand s.rIdx % (rest.length + 1), Nat.mod_lt _ (Nat.succ_pos _)⟩).2| <
      eps6
  · rw [if_pos hlast, hex]
    simp only [choice, Bind.bind, Except.bind]
    refine ⟨_, rfl, Or.inl ⟨hlast, ?_⟩⟩
    refine ⟨(a :: t).get ⟨env.rand (s.rIdx + 1) % (t.length + 1),
      Nat.mod_lt _ (Nat.succ_pos _)⟩, ?_, ?_⟩
    · exact List.get_mem _ _ _
    · rfl
  · rw [if_neg hlast]
    exact ⟨_, rfl, Or.inr ⟨hlast, rfl⟩⟩

/-- Witness for `fit_branch_tagging` at a concrete state. -/
theorem fit_branch_tagging_witness :
    ∃ pk s1, choice envB stB (validFits ((3 : ℚ) - 0)) = .ok (pk, s1) ∧
      pk ∈ validFits ((3 : ℚ) - 0) ∧
      ∃ s2, gapLoop envB 0 3 (7 + 1) 0 stB = gapLoop envB 0 3 7 (0 + pk.2) s2 ∧
        ((|(3 : ℚ) - 0 - pk.2| < eps6 ∧ ∃ lay ∈ stB.existing,
            s2.srfs = stB.srfs ++ [some (Panel.mk 0 0 (0 + pk.2) lay Site.fitLast)]) ∨
          (¬ |(3 : ℚ) - 0 - pk.2| < eps6 ∧
            s2.srfs = stB.srfs ++ [some (Panel.mk 0 0 (0 + pk.2) pk.1 Site.fit)])) :=
  fit_branch_tagging envB 0 3 7 0 stB (by decide)
    (1, 1 / 2) [(2, 1), (3, 3 / 2), (4, 2), (5, 5 / 2), (6, 3)] (by decide)
    rfl 1 [] rfl

/-- Claim C9: every custom filler panel emitted while closing a column is
strictly shorter than the smallest catalog height. -/
theorem filler_below_min_catalog (env : Env) (maxH : ℚ) (s : St) (i : ℕ) (c : ℚ) (s2 : St)
    (h : closeColumn env maxH s i = .ok (c, s2)) :
    ∃ t, s2.srfs = s.srfs ++ t ∧ ∀ p : Panel, some p ∈ t →
      p.site = Site.filler → p.y1 - p.y0 < minCatalogHeight := by
  obtain ⟨_, _, _, t, hsrfs, hp⟩ := closeColumn_spec h
  rw [minCatalogHeight_eq]
  exact ⟨t, hsrfs, fun p hp2 hs => (hp p hp2).2.2.2 hs⟩

/-- Witness for `filler_below_min_catalog` at a concrete run that emits
filler panels. -/
theorem filler_below_min_catalog_witness :
    ∃ t, (St.mk 2 2 [1] [1] [0]
        [some (Panel.mk 0 0 (3 / 10) 1 Site.filler),
         some (Panel.mk 0 0 (3 / 10) 1 Site.filler)]).srfs = stB.srfs ++ t ∧
      ∀ p : Panel, some p ∈ t → p.site = Site.filler → p.y1 - p.y0 < minCatalogHeight :=
  filler_below_min_catalog envB (3 / 10) stB 0 0 _ (by decide)

/-- Claim C10: the run never exhausts the loop bound (the embedded fuel,
set to the worst-case iteration count, is never consumed — the while loop
terminates); `gapLoop` never exhausts any fuel at least `gapFuel gap`; every
valid catalog fit has height at least the smallest catalog height (so each
fit iteration advances the running height by at least that much); and the
stacking phase emits exactly `yNum * xNum` output entries. -/
theorem run_bounded :
    (∀ (env : Env) (x y : ℕ), pavPattern env x y ≠ .error .fuelOut) ∧
    (∀ (env : Env) (i : ℕ) (maxH : ℚ) (fuel : ℕ) (cur : ℚ) (s : St),
      gapFuel (maxH - cur) ≤ fuel → gapLoop env i maxH fuel cur s ≠ .error .fuelOut) ∧
    (∀ (g : ℚ) (pr : ℕ × ℚ), pr ∈ validFits g → minCatalogHeight ≤ pr.2) ∧
    (∀ (env : Env) (x y : ℕ) (s : St),
      (stackPhase env x y s).srfs.length = s.srfs.length + y * x) := by
  refine ⟨?_, ?_, ?_, fun env x y s => (stackPhase_props env x y s).2.2.2⟩
  · intro env x y
    rcases Nat.eq_zero_or_pos x with h0 | h1
    · subst h0
      rw [pavPattern_zero]
      simp
    · obtain ⟨r, hok, _⟩ := pavPattern_run env x y h1
      rw [hok]
      simp
  · intro env i maxH fuel cur s hf
    exact gapLoop_no_fuelOut env i maxH fuel cur s hf
  · intro g pr hm
    rw [minCatalogHeight_eq]
    exact (bucket_heights_halfint _ (validFits_mem hm).1).2

/-- Witness for `run_bounded` at concrete inputs. -/
theorem run_bounded_witness :
    gapLoop env0 0 0 (gapFuel (0 - 0)) 0 (initSt env0 1) ≠ .error .fuelOut ∧
    minCatalogHeight ≤ ((1 : ℕ), (1 : ℚ) / 2).2 :=
  ⟨(run_bounded).2.1 env0 0 0 (gapFuel (0 - 0)) 0 (initSt env0 1) le_rfl,
   (run_bounded).2.2.1 3 (1, 1 / 2) (by decide)⟩

end Paving
